import Mathlib

/-!
# Verification of the Pythia ambient signal display engine

Shallow embedding of the frontend display scheduler, render engine,
overlay geometry and stream client, with proofs of the specified
properties.  Numeric quantities computed by the JavaScript source are
modelled over `ℚ`; the random values produced by `Math.random()` are
passed in explicitly as parameters in `[0, 1)`.
-/

open scoped List

namespace Pythia

/-! ## Display duration (src/frontend/src/views/Display.jsx)

`displayDuration` is the current linear policy:
`(8 + (criticality - 1) * 3) * 1_000` (milliseconds).

`displayDurationBanded` is the superseded banded policy from the earlier
revision of the Display view (`src/unnamed/part_001`):
`crit ≥ 7 → 30_000; crit ≥ 4 → 20_000; else 10_000`. -/

def displayDuration (criticality : ℚ) : ℚ :=
  (8 + (criticality - 1) * 3) * 1000

def displayDurationBanded (criticality : ℚ) : ℚ :=
  if criticality ≥ 7 then 30000
  else if criticality ≥ 4 then 20000
  else 10000

/-- Modelled from the spec: "clamped to [1,10] before use in any timing or
visual formula".  No clamping function exists anywhere in the source; this
definition renders the words of the spec so the claim can be compared with
the actual behaviour of the code. -/
def clampCritSpec (criticality : ℚ) : ℚ :=
  min 10 (max 1 criticality)

/-! ## Stream client backoff (src/unnamed/part_002, useWebSocket)

`delayRef` starts at `RECONNECT_DELAY_MS`; the reconnect timer waits the
current delay and, on firing, multiplies the delay by `RECONNECT_BACKOFF`
capped at `RECONNECT_DELAY_MAX_MS` (so the multiplier only affects the wait
after the new attempt itself fails); `ws.onopen` resets the delay. -/

def RECONNECT_DELAY_MS : ℚ := 3000
def RECONNECT_DELAY_MAX_MS : ℚ := 30000
def RECONNECT_BACKOFF : ℚ := 3 / 2

/-- The update applied to `delayRef` when the reconnect timer fires:
`Math.min(delayRef.current * RECONNECT_BACKOFF, RECONNECT_DELAY_MAX_MS)`. -/
def nextDelay (d : ℚ) : ℚ :=
  min (d * RECONNECT_BACKOFF) RECONNECT_DELAY_MAX_MS

/-- `backoffDelay n` is the wait before the `(n+1)`-st consecutive
reconnection attempt: the value of `delayRef` when the `n`-th failure
schedules the reconnect. -/
def backoffDelay : ℕ → ℚ
  | 0 => RECONNECT_DELAY_MS
  | n + 1 => nextDelay (backoffDelay n)

inductive ConnStatus where
  | connecting
  | connected
  | disconnected
deriving DecidableEq, Repr

/-- The observable state of the `useWebSocket` hook: connection status and
the current backoff delay held in `delayRef`. -/
structure WSClient where
  status : ConnStatus
  delay : ℚ
deriving DecidableEq, Repr

/-- Initial hook state: `useState("connecting")`, `useRef(RECONNECT_DELAY_MS)`. -/
def WSClient.init : WSClient :=
  { status := .connecting, delay := RECONNECT_DELAY_MS }

/-- `ws.onopen`: status → connected, `delayRef.current = RECONNECT_DELAY_MS`. -/
def WSClient.onOpen (s : WSClient) : WSClient :=
  { s with status := .connected, delay := RECONNECT_DELAY_MS }

/-- `ws.onclose`: status → disconnected (then `scheduleReconnect` is called;
the delay itself is untouched until the timer fires). -/
def WSClient.onClose (s : WSClient) : WSClient :=
  { s with status := .disconnected }

/-- The reconnect timer firing inside `scheduleReconnect`: the delay is
multiplied (capped) for the *next* failure and `connect()` sets status to
connecting. -/
def WSClient.reconnectFire (s : WSClient) : WSClient :=
  { s with status := .connecting, delay := nextDelay s.delay }

/-! ## Events and the pending queue (Display.jsx)

An `EvaluatedEvent` is reduced to the two fields the scheduler inspects:
its criticality and an arrival index distinguishing events and recording
arrival order.  The enqueue effect pushes the new event and re-sorts the
whole array with the comparator `(a, b) => b.criticality - a.criticality`;
the JavaScript array sort is stable, which `List.mergeSort` models. -/

structure Ev where
  criticality : ℚ
  arrival : ℕ
deriving DecidableEq, Repr

/-- The JS comparator `(a, b) => b.criticality - a.criticality` as the
non-strict order a stable sort consults: `a` may stay before `b` exactly
when the comparator is ≤ 0 on `(a, b)`. -/
def jsSortLe (a b : Ev) : Bool :=
  decide (b.criticality ≤ a.criticality)

/-- `pendingRef.current.push(lastEvent); pendingRef.current.sort(...)`. -/
def enqueueEvent (q : List Ev) (e : Ev) : List Ev :=
  (q ++ [e]).mergeSort jsSortLe

/-- The queue order the spec demands: criticality strictly descending, and
among equal criticalities the arrival order. -/
def ordRel (a b : Ev) : Prop :=
  b.criticality < a.criticality ∨
    (a.criticality = b.criticality ∧ a.arrival < b.arrival)

instance : DecidableRel ordRel := fun _ _ => by
  unfold ordRel; infer_instance

/-- Enqueue the events of `cs` in order, tagging them with consecutive
arrival indices starting at `n`. -/
def runEnqueues : List ℚ → ℕ → List Ev → List Ev
  | [], _, q => q
  | c :: cs, n, q => runEnqueues cs (n + 1) (enqueueEvent q ⟨c, n⟩)

/-! ## Display scheduler state machine (Display.jsx)

State components: `circleState` (useState "idle"), `currentEvent`,
`displayAngle`, the `pendingRef` queue, and whether the inter-event gap
timer is pending (`gapTimerRef.current` non-null).  `Math.random()` values
are passed in as explicit parameters in `[0, 1)`. -/

/-- The JS double `Math.PI`, modelled by its printed decimal value. -/
def MATH_PI : ℚ := 3.141592653589793

def GAP_MS : ℚ := 2000

inductive CState where
  | idle
  | analyzing
  | divergence
  | returning
deriving DecidableEq, Repr

structure Sched where
  circleState : CState
  currentEvent : Option Ev
  displayAngle : Option ℚ
  pending : List Ev
  gapPending : Bool
deriving DecidableEq, Repr

/-- Initial state of the Display view. -/
def Sched.init : Sched :=
  { circleState := .idle, currentEvent := none, displayAngle := none,
    pending := [], gapPending := false }

/-- The millisecond argument `advance` hands to the nested `setTimeout`
that ends the DIVERGENCE phase: `displayDuration(next.criticality)`,
applied to the raw criticality of the popped event. -/
def divergenceHoldMs (e : Ev) : ℚ :=
  displayDuration e.criticality

/-- `advance()`: shift the queue head; if empty go idle and clear the
active event and angle; otherwise generate a fresh shared angle
(`Math.random() * Math.PI * 2`), activate the event and enter analyzing. -/
def advance (rand : ℚ) (s : Sched) : Sched :=
  match s.pending with
  | [] =>
      { s with circleState := .idle, currentEvent := none, displayAngle := none }
  | e :: rest =>
      { s with circleState := .analyzing, currentEvent := some e,
               displayAngle := some (rand * MATH_PI * 2), pending := rest }

/-- The enqueue effect (lines 83–93): push and stable-resort, then start a
cycle only when the machine is idle and no gap timer is pending. -/
def enqueueFn (e : Ev) (rand : ℚ) (s : Sched) : Sched :=
  let s' := { s with pending := enqueueEvent s.pending e }
  if s.circleState = .idle ∧ s.gapPending = false then advance rand s' else s'

/-- `handleReturnComplete()`: clear the active event and angle, go idle,
and arm the gap timer when events are still queued. -/
def handleReturnComplete (s : Sched) : Sched :=
  let s' := { s with circleState := .idle, currentEvent := none,
                     displayAngle := none }
  if s'.pending.isEmpty then s' else { s' with gapPending := true }

/-- One asynchronous callback of the Display view.  The phase timers armed
by `advance` fire only in the state they were armed for (they are cleared
by `handleReturnComplete`, and a fresh cycle re-arms them), and the render
engine invokes `onReturnComplete` only during RETURNING. -/
inductive Step : Sched → Sched → Prop where
  | enqueue (s : Sched) (e : Ev) (rand : ℚ) (h0 : 0 ≤ rand) (h1 : rand < 1) :
      Step s (enqueueFn e rand s)
  | analyzeDone (s : Sched) (h : s.circleState = .analyzing) :
      Step s { s with circleState := .divergence }
  | divergeDone (s : Sched) (h : s.circleState = .divergence) :
      Step s { s with circleState := .returning }
  | returnComplete (s : Sched) (h : s.circleState = .returning) :
      Step s (handleReturnComplete s)
  | gapFire (s : Sched) (rand : ℚ) (h0 : 0 ≤ rand) (h1 : rand < 1)
      (hg : s.gapPending = true) :
      Step s (advance rand { s with gapPending := false })

inductive Reachable : Sched → Prop where
  | init : Reachable Sched.init
  | step {s s' : Sched} : Reachable s → Step s s' → Reachable s'

/-! ## Render engine (src/frontend/src/components/PythiaCircle.jsx) -/

def RETURN_DUR : ℚ := 2.5

structure Emission where
  angle : ℚ
  halfWidth : ℚ
  strength : ℚ
deriving DecidableEq, Repr

/-- `makeEmission(criticality, angle = null)`: the arc center is the given
angle when non-null, otherwise a locally generated
`Math.random() * Math.PI * 2`. -/
def makeEmission (criticality : ℚ) (angle : Option ℚ) (rand : ℚ) : Emission :=
  { angle := angle.getD (rand * MATH_PI * 2),
    halfWidth := (0.35 + (criticality / 10) * 0.85) / 2,
    strength := 0.35 + (criticality / 10) * 0.75 }

/-- The per-phase render-loop memory: the return-complete latch
(`returnNotifiedRef`) and the emission arc (`emissionRef`). -/
structure RenderPhase where
  notified : Bool
  emission : Option Emission
deriving DecidableEq, Repr

/-- The state-change effect (lines 67–79): reset the phase clock and the
latch; set up the emission arc for analyzing, keep an existing arc in
divergence (creating one only when absent), clear it on idle, and leave it
untouched in returning. -/
def stateChangeEffect (state : CState) (criticality : ℚ)
    (emissionAngle : Option ℚ) (rand : ℚ) (em : Option Emission) :
    RenderPhase :=
  { notified := false,
    emission :=
      match state with
      | .analyzing => some (makeEmission criticality emissionAngle rand)
      | .divergence =>
          match em with
          | none => some (makeEmission criticality emissionAngle rand)
          | some e => some e
      | .idle => none
      | .returning => em }

/-- The notify guard of one animation frame (lines 229–233): fire iff the
state is returning, the elapsed-in-state time has reached `RETURN_DUR`,
and the latch is still clear; firing sets the latch. -/
def frameNotify (s : CState) (stateT : ℚ) (notified : Bool) : Bool × Bool :=
  if s = .returning ∧ RETURN_DUR ≤ stateT ∧ notified = false then
    (true, true)
  else
    (false, notified)

/-- Number of completion signals fired over a list of frame times, threading
the latch. -/
def runNotify (s : CState) : List ℚ → Bool → ℕ
  | [], _ => 0
  | t :: ts, notified =>
      let r := frameNotify s t notified
      (if r.1 then 1 else 0) + runNotify s ts r.2

/-! ## Geometry shared by the render engine and the HUD overlay

`handleResize` computes `size = min(innerWidth, innerHeight) * 0.6` and
assigns it to `canvas.width` and `canvas.height`; the canvas dimension
attributes are HTML unsigned longs, so a fractional size is truncated to a
whole number, and the loop reads the truncated `canvas.width` back as `W`.
The floor below equals that truncation on the nonnegative sizes involved.
`HUDOverlay` recomputes the radius from the untruncated viewport values.
Both point formulas are parametrized by the cosine and sine of the shared
angle, since both files apply `Math.cos`/`Math.sin` to the same input. -/

def canvasSizeRaw (w h : ℚ) : ℚ := min w h * 0.6

/-- The value read back from `canvas.width` after `handleResize`. -/
def canvasDim (w h : ℚ) : ℤ := ⌊canvasSizeRaw w h⌋

/-- `baseR = W * 0.38` in the render loop. -/
def renderBaseR (w h : ℚ) : ℚ := (canvasDim w h : ℚ) * 0.38

/-- The arc-center point of the primary emission on the ring, in canvas
coordinates: `cx + Math.cos(angle) * baseR` with `cx = W / 2`. -/
def renderArcX (w h cosA : ℚ) : ℚ :=
  (canvasDim w h : ℚ) / 2 + cosA * renderBaseR w h

def renderArcY (w h sinA : ℚ) : ℚ :=
  (canvasDim w h : ℚ) / 2 + sinA * renderBaseR w h

/-- `circleR = Math.min(vp.w, vp.h) * 0.6 * 0.38` in HUDOverlay. -/
def hudCircleR (w h : ℚ) : ℚ := min w h * 0.6 * 0.38

/-- `anchorX = cx + radX * circleR` with `cx = vp.w / 2`. -/
def hudAnchorX (w h cosA : ℚ) : ℚ := w / 2 + cosA * hudCircleR w h

/-- `anchorY = cy + radY * circleR` with `cy = vp.h / 2`. -/
def hudAnchorY (w h sinA : ℚ) : ℚ := h / 2 + sinA * hudCircleR w h

/-! ## HUD overlay event retention (HUDOverlay.jsx, lines 34–36) -/

/-- `const displayEvent = event || lastEventRef.current`. -/
def hudDisplayed (event last : Option Ev) : Option Ev :=
  match event with
  | some e => some e
  | none => last

/-- `if (event) lastEventRef.current = event`. -/
def hudNewLast (event last : Option Ev) : Option Ev :=
  if event.isSome then event else last

/-- The displayed payload over a sequence of renders, given the input
`event` prop of each render and the initial ref value. -/
def hudRun : List (Option Ev) → Option Ev → List (Option Ev)
  | [], _ => []
  | e :: rest, last => hudDisplayed e last :: hudRun rest (hudNewLast e last)

/-! ## Invariant predicates -/

/-- Full queue invariant threaded through a run of enqueues: the queue is
pairwise in the required order, all arrival indices are below the next
fresh index `n`, and the arrival indices are distinct. -/
def QueueInv (n : ℕ) (q : List Ev) : Prop :=
  q.Pairwise ordRel ∧ (∀ x ∈ q, x.arrival < n) ∧ (q.map Ev.arrival).Nodup

/-- The emission-angle invariant of the scheduler: the shared angle is
present exactly while a cycle is running, and is a genuine angle in
`[0, 2·Math.PI)`. -/
def angleInv (s : Sched) : Prop :=
  (s.displayAngle ≠ none ↔ s.circleState ≠ .idle) ∧
  (∀ a : ℚ, s.displayAngle = some a → 0 ≤ a ∧ a < MATH_PI * 2)

/-! # Theorems -/

/-! ## Helper lemmas -/

theorem jsSortLe_trans : ∀ a b c : Ev, jsSortLe a b → jsSortLe b c → jsSortLe a c := by
  intro a b c hab hbc
  simp only [jsSortLe, decide_eq_true_eq] at *
  exact le_trans hbc hab

theorem jsSortLe_total : ∀ a b : Ev, jsSortLe a b || jsSortLe b a := by
  intro a b
  simp only [jsSortLe, Bool.or_eq_true, decide_eq_true_eq]
  exact le_total b.criticality a.criticality

/-- In a duplicate-free list, two elements cannot occur in both orders. -/
theorem pair_sublist_antisymm {α : Type} :
    ∀ {r : List α} {a b : α}, r.Nodup → [a, b] <+ r → [b, a] <+ r → a = b := by
  intro r
  induction r with
  | nil => intro a b _ h1 _; simp at h1
  | cons x t ih =>
    intro a b hnd h1 h2
    cases h1 with
    | cons _ h1' =>
      cases h2 with
      | cons _ h2' => exact ih (List.nodup_cons.mp hnd).2 h1' h2'
      | cons₂ _ h2' =>
        exact absurd (h1'.subset (by simp)) (List.nodup_cons.mp hnd).1
    | cons₂ _ h1' =>
      cases h2 with
      | cons _ h2' =>
        exact absurd (h2'.subset (by simp)) (List.nodup_cons.mp hnd).1
      | cons₂ _ h2' => rfl

/-- Two distinct members of a list occur in one of the two orders. -/
theorem mem_mem_order {α : Type} :
    ∀ {q : List α} {a b : α}, a ∈ q → b ∈ q → a ≠ b →
      [a, b] <+ q ∨ [b, a] <+ q := by
  intro q
  induction q with
  | nil => intro a b ha _ _; simp at ha
  | cons x t ih =>
    intro a b ha hb hne
    rcases List.mem_cons.mp ha with hax | hat
    · subst hax
      rcases List.mem_cons.mp hb with hbx | hbt
      · exact absurd hbx.symm hne
      · exact Or.inl ((List.singleton_sublist.mpr hbt).cons₂ a)
    · rcases List.mem_cons.mp hb with hbx | hbt
      · subst hbx
        exact Or.inr ((List.singleton_sublist.mpr hat).cons₂ b)
      · exact (ih hat hbt hne).imp (·.cons x) (·.cons x)

/-! ## C1 — linear display duration -/

/-- C1: for every criticality `c`, the display-hold duration is the linear
formula `8 s + 3 s × (c − 1)` (in milliseconds), so `duration(1) = 8 s`,
`duration(5) = 20 s`, `duration(10) = 35 s`; the earlier banded
10/20/30 s policy gives different values (already at criticality 1) and is
not the function the Display view uses. -/
theorem duration_is_linear :
    (∀ c : ℚ, displayDuration c = (8 + 3 * (c - 1)) * 1000) ∧
    displayDuration 1 = 8000 ∧
    displayDuration 5 = 20000 ∧
    displayDuration 10 = 35000 ∧
    displayDurationBanded 1 = 10000 ∧
    displayDuration 1 ≠ displayDurationBanded 1 := by
  refine ⟨fun c => by unfold displayDuration; ring, ?_, ?_, ?_, ?_, ?_⟩ <;>
    norm_num [displayDuration, displayDurationBanded]

/-! ## C4 — reconnection backoff -/

/-- C4: starting from the 3000 ms base, the waits before successive
reconnection attempts after consecutive failures are 3000, 4500, 6750,
10125, 15187.5; every delay obeys `next = min(previous × 1.5, 30000)`, so
the sequence never exceeds the 30000 ms cap and sits at exactly 30000 from
the seventh wait on.  The multiplier is applied only when the reconnect
timer fires (the wait itself uses the pre-multiplication value, and a
close does not touch the delay), and a successful open resets the delay to
3000 ms. -/
theorem backoff_delay_sequence :
    backoffDelay 0 = 3000 ∧
    backoffDelay 1 = 4500 ∧
    backoffDelay 2 = 6750 ∧
    backoffDelay 3 = 10125 ∧
    backoffDelay 4 = 15187.5 ∧
    (∀ n : ℕ, backoffDelay (n + 1) = min (backoffDelay n * 1.5) 30000) ∧
    (∀ n : ℕ, backoffDelay n ≤ 30000) ∧
    (∀ n : ℕ, backoffDelay (n + 6) = 30000) ∧
    (∀ s : WSClient, (s.onOpen).delay = 3000 ∧ (s.onOpen).status = .connected) ∧
    (∀ s : WSClient, (s.reconnectFire).delay = min (s.delay * 1.5) 30000) ∧
    (∀ s : WSClient, (s.onClose).delay = s.delay) := by
  refine ⟨?_, ?_, ?_, ?_, ?_, ?_, ?_, ?_, ?_, ?_, ?_⟩
  · norm_num [backoffDelay, RECONNECT_DELAY_MS]
  · norm_num [backoffDelay, nextDelay, RECONNECT_DELAY_MS, RECONNECT_BACKOFF,
      RECONNECT_DELAY_MAX_MS, min_def]
  · norm_num [backoffDelay, nextDelay, RECONNECT_DELAY_MS, RECONNECT_BACKOFF,
      RECONNECT_DELAY_MAX_MS, min_def]
  · norm_num [backoffDelay, nextDelay, RECONNECT_DELAY_MS, RECONNECT_BACKOFF,
      RECONNECT_DELAY_MAX_MS, min_def]
  · norm_num [backoffDelay, nextDelay, RECONNECT_DELAY_MS, RECONNECT_BACKOFF,
      RECONNECT_DELAY_MAX_MS, min_def]
  · intro n
    show nextDelay (backoffDelay n) = _
    unfold nextDelay RECONNECT_BACKOFF RECONNECT_DELAY_MAX_MS
    norm_num
  · intro n
    induction n with
    | zero => norm_num [backoffDelay, RECONNECT_DELAY_MS]
    | succ m _ =>
      show nextDelay (backoffDelay m) ≤ _
      unfold nextDelay RECONNECT_DELAY_MAX_MS
      exact min_le_right _ _
  · intro n
    induction n with
    | zero =>
      norm_num [backoffDelay, nextDelay, RECONNECT_DELAY_MS, RECONNECT_BACKOFF,
        RECONNECT_DELAY_MAX_MS, min_def]
    | succ m ih =>
      show nextDelay (backoffDelay (m + 6)) = _
      rw [ih]
      norm_num [nextDelay, RECONNECT_BACKOFF, RECONNECT_DELAY_MAX_MS, min_def]
  · intro s; exact ⟨rfl, rfl⟩
  · intro s
    show nextDelay s.delay = _
    unfold nextDelay RECONNECT_BACKOFF RECONNECT_DELAY_MAX_MS
    norm_num
  · intro s; rfl

/-! ## C5 — criticality is not clamped -/

/-- C5 counterexample: at criticality 15, the code arms the divergence
timer with `displayDuration(15) = 50000 ms`, not the
`displayDuration(clamp(15)) = 35000 ms` the claim requires, and the render
engine emission strength likewise uses the raw value; so out-of-range
criticality is not clamped before use in the timing or visual formulas. -/
theorem crit_clamp_counterexample :
    divergenceHoldMs ⟨15, 0⟩ = 50000 ∧
    displayDuration (clampCritSpec 15) = 35000 ∧
    divergenceHoldMs ⟨15, 0⟩ ≠ displayDuration (clampCritSpec 15) ∧
    (makeEmission 15 none 0).strength ≠
      (makeEmission (clampCritSpec 15) none 0).strength := by
  refine ⟨?_, ?_, ?_, ?_⟩ <;>
    norm_num [divergenceHoldMs, displayDuration, clampCritSpec, makeEmission,
      min_def, max_def]

/-- C5 amended: out-of-range criticality is used unclamped — the duration
formula and the visual emission formulas are applied to the raw value for
every criticality, including values outside `[1, 10]` — and out-of-range
events are indeed never rejected: enqueue always inserts the event (it
ends up in the queue or is immediately activated). -/
theorem crit_used_raw_and_never_rejected :
    (∀ c : ℚ, displayDuration c = (8 + (c - 1) * 3) * 1000) ∧
    (∀ e : Ev, divergenceHoldMs e = displayDuration e.criticality) ∧
    (∀ c rand : ℚ,
        (makeEmission c none rand).strength = 0.35 + (c / 10) * 0.75 ∧
        (makeEmission c none rand).halfWidth = (0.35 + (c / 10) * 0.85) / 2) ∧
    (∀ (s : Sched) (e : Ev) (rand : ℚ),
        e ∈ (enqueueFn e rand s).pending ∨
          (enqueueFn e rand s).currentEvent = some e) := by
  refine ⟨fun c => rfl, fun e => rfl, fun c rand => ⟨rfl, rfl⟩, ?_⟩
  intro s e rand
  have hmem : e ∈ enqueueEvent s.pending e := by
    simp [enqueueEvent]
  unfold enqueueFn
  by_cases hc : s.circleState = .idle ∧ s.gapPending = false
  · rw [if_pos hc]
    cases hq : enqueueEvent s.pending e with
    | nil => rw [hq] at hmem; simp at hmem
    | cons x rest =>
      rw [hq] at hmem
      unfold advance
      simp only [hq]
      rcases List.mem_cons.mp hmem with hex | her
      · exact Or.inr (by simp [hex])
      · exact Or.inl (by simpa using her)
  · rw [if_neg hc]
    exact Or.inl hmem

/-! ## C3 — no preemption of the active cycle -/

/-- C3: whenever a cycle is active (state is not idle), enqueueing any
event — whatever its criticality — leaves the state, the active event,
the shared angle and the gap flag unchanged and only inserts the event
into the re-sorted queue; moreover, across every scheduler step, the
active event can change only at a transition into ANALYZING (or by being
cleared), so a queued event becomes active only at a later ANALYZING
transition. -/
theorem enqueue_never_preempts :
    (∀ (s : Sched) (e : Ev) (rand : ℚ), s.circleState ≠ .idle →
        (enqueueFn e rand s).circleState = s.circleState ∧
        (enqueueFn e rand s).currentEvent = s.currentEvent ∧
        (enqueueFn e rand s).displayAngle = s.displayAngle ∧
        (enqueueFn e rand s).gapPending = s.gapPending ∧
        (enqueueFn e rand s).pending = enqueueEvent s.pending e) ∧
    (∀ (s s' : Sched), Step s s' → s'.currentEvent ≠ s.currentEvent →
        s'.circleState = .analyzing ∨ s'.currentEvent = none) := by
  constructor
  · intro s e rand h
    unfold enqueueFn
    rw [if_neg (fun hc => h hc.1)]
    exact ⟨rfl, rfl, rfl, rfl, rfl⟩
  · intro s s' hstep hne
    cases hstep with
    | enqueue e rand h0 h1 =>
      unfold enqueueFn at hne ⊢
      by_cases hc : s.circleState = .idle ∧ s.gapPending = false
      · rw [if_pos hc] at hne ⊢
        unfold advance at hne ⊢
        cases hq : enqueueEvent s.pending e with
        | nil => simp [hq]
        | cons x rest => simp [hq]
      · rw [if_neg hc] at hne
        exact absurd rfl hne
    | analyzeDone h => exact absurd rfl hne
    | divergeDone h => exact absurd rfl hne
    | returnComplete h =>
      unfold handleReturnComplete
      by_cases hp : s.pending.isEmpty <;> simp [hp]
    | gapFire rand h0 h1 hg =>
      unfold advance at hne ⊢
      cases hq : s.pending with
      | nil => simp [hq]
      | cons x rest => simp [hq]

/-- C3 witness: the spec scenario — DIVERGENCE active for a criticality-4
event, a criticality-9 event arrives — with the conclusion evaluated: the
state and the active event are unchanged. -/
theorem enqueue_never_preempts_witness :
    (Sched.mk .divergence (some ⟨4, 0⟩) (some 1) [] false).circleState ≠ .idle ∧
    (enqueueFn ⟨9, 1⟩ 0
        (Sched.mk .divergence (some ⟨4, 0⟩) (some 1) [] false)).circleState
      = .divergence ∧
    (enqueueFn ⟨9, 1⟩ 0
        (Sched.mk .divergence (some ⟨4, 0⟩) (some 1) [] false)).currentEvent
      = some ⟨4, 0⟩ := by
  have h := enqueue_never_preempts.1
    (Sched.mk .divergence (some ⟨4, 0⟩) (some 1) [] false) ⟨9, 1⟩ 0
    (by simp)
  exact ⟨by simp, h.1, h.2.1⟩

/-! ## C7 — return-completion signal fires exactly once -/

/-- C7: within a single RETURNING phase (latch starting clear after the
state change), the completion signal fires at most once over any sequence
of frames, and fires exactly once precisely when some frame has
elapsed-in-state time reaching `RETURN_DUR`; a frame fires exactly when
the threshold is reached with the latch clear, the state-change effect
always resets the latch, and the scheduler is idempotent under a repeated
return-complete invocation (the first one already ends the phase). -/
theorem return_signal_fires_once :
    (∀ ts : List ℚ, runNotify .returning ts false ≤ 1) ∧
    (∀ ts : List ℚ,
        (runNotify .returning ts false = 1 ↔ ∃ t ∈ ts, RETURN_DUR ≤ t)) ∧
    (∀ (t : ℚ) (b : Bool),
        ((frameNotify .returning t b).1 = true ↔ (RETURN_DUR ≤ t ∧ b = false))) ∧
    (∀ (st : CState) (c : ℚ) (a : Option ℚ) (r : ℚ) (em : Option Emission),
        (stateChangeEffect st c a r em).notified = false) ∧
    (∀ s : Sched, handleReturnComplete (handleReturnComplete s) = handleReturnComplete s) ∧
    (∀ s : Sched, (handleReturnComplete s).circleState = .idle) := by
  have hlatched : ∀ (st : CState) (ts : List ℚ), runNotify st ts true = 0 := by
    intro st ts
    induction ts with
    | nil => rfl
    | cons t ts ih => simp [runNotify, frameNotify, ih]
  refine ⟨?_, ?_, ?_, ?_, ?_, ?_⟩
  · intro ts
    induction ts with
    | nil => simp [runNotify]
    | cons t ts ih =>
      by_cases hc : RETURN_DUR ≤ t
      · simp [runNotify, frameNotify, hc, hlatched]
      · simpa [runNotify, frameNotify, hc] using ih
  · intro ts
    induction ts with
    | nil => simp [runNotify]
    | cons t ts ih =>
      by_cases hc : RETURN_DUR ≤ t
      · simp [runNotify, frameNotify, hc, hlatched]
      · simpa [runNotify, frameNotify, hc] using ih
  · intro t b
    unfold frameNotify
    by_cases hc : RETURN_DUR ≤ t ∧ b = false <;> simp [hc]
  · intro st c a r em; rfl
  · intro s
    unfold handleReturnComplete
    by_cases hp : s.pending.isEmpty <;> simp [hp]
  · intro s
    unfold handleReturnComplete
    by_cases hp : s.pending.isEmpty <;> simp [hp]

/-! ## C9 — overlay retains the last active event through fade-out -/

/-- C9: the overlay always renders the event prop when present and the
retained payload otherwise, so during a fade-out (event prop null) the
most recently active event is still rendered; the displayed payload can
become null only if it was already null (no visible label ever
disappears), the payload changes only when a new event becomes active
(discard happens only by replacement), the retained ref always equals the
last displayed value, across any sequence of renders a non-null payload
stays non-null, and the scheduler feeds the fade-out by clearing the
active event at return-complete. -/
theorem hud_retains_last_event :
    (∀ last : Option Ev, hudDisplayed none last = last) ∧
    (∀ (e last : Option Ev), hudDisplayed e last = none → e = none ∧ last = none) ∧
    (∀ (e last : Option Ev), hudDisplayed e last ≠ last →
        e ≠ none ∧ hudDisplayed e last = e) ∧
    (∀ (e last : Option Ev), hudNewLast e last = hudDisplayed e last) ∧
    (∀ (inputs : List (Option Ev)) (last : Option Ev), last ≠ none →
        ∀ d ∈ hudRun inputs last, d ≠ none) ∧
    (∀ s : Sched, (handleReturnComplete s).currentEvent = none) := by
  refine ⟨fun last => rfl, ?_, ?_, ?_, ?_, ?_⟩
  · intro e last h
    cases e with
    | none => exact ⟨rfl, h⟩
    | some x => simp [hudDisplayed] at h
  · intro e last h
    cases e with
    | none => exact absurd rfl h
    | some x => exact ⟨by simp, rfl⟩
  · intro e last
    cases e with
    | none => rfl
    | some x => rfl
  · intro inputs
    induction inputs with
    | nil => intro last h d hd; simp [hudRun] at hd
    | cons e rest ih =>
      intro last h d hd
      rcases List.mem_cons.mp hd with hd1 | hd2
      · subst hd1
        cases e with
        | none => exact h
        | some x => simp [hudDisplayed]
      · refine ih (hudNewLast e last) ?_ d hd2
        cases e with
        | none => exact h
        | some x => simp [hudNewLast]
  · intro s
    unfold handleReturnComplete
    by_cases hp : s.pending.isEmpty <;> simp [hp]

/-- C9 witness: a concrete fade-out — the displayed payload differs from
the stale ref only because a new event became active, and it equals that
event. -/
theorem hud_retains_last_event_witness :
    hudDisplayed (some ⟨7, 1⟩) (some ⟨5, 0⟩) ≠ some ⟨5, 0⟩ ∧
    (some (⟨7, 1⟩ : Ev) ≠ none ∧
      hudDisplayed (some ⟨7, 1⟩) (some ⟨5, 0⟩) = some ⟨7, 1⟩) := by
  have h := hud_retains_last_event.2.2.1 (some ⟨7, 1⟩) (some ⟨5, 0⟩)
    (by simp [hudDisplayed])
  exact ⟨by simp [hudDisplayed], h⟩

/-! ## C10 — local fallback angle in the render engine -/

/-- C10: `makeEmission` uses exactly the provided emission angle whenever
it is non-null, and generates a local pseudo-random angle
(`Math.random() * Math.PI * 2`, a genuine angle in `[0, 2·Math.PI)`) when
the input is null; the state-change effect builds the arc this way on
entering ANALYZING, and on entering DIVERGENCE with no arc set, while an
existing arc is kept in DIVERGENCE. -/
theorem emission_angle_fallback :
    (∀ (c a rand : ℚ), (makeEmission c (some a) rand).angle = a) ∧
    (∀ (c rand : ℚ), (makeEmission c none rand).angle = rand * MATH_PI * 2) ∧
    (∀ (c rand : ℚ), 0 ≤ rand → rand < 1 →
        0 ≤ (makeEmission c none rand).angle ∧
        (makeEmission c none rand).angle < MATH_PI * 2) ∧
    (∀ (c rand : ℚ) (a : Option ℚ) (em : Option Emission),
        (stateChangeEffect .analyzing c a rand em).emission
          = some (makeEmission c a rand)) ∧
    (∀ (c rand : ℚ) (a : Option ℚ),
        (stateChangeEffect .divergence c a rand none).emission
          = some (makeEmission c a rand)) ∧
    (∀ (c rand : ℚ) (a : Option ℚ) (e : Emission),
        (stateChangeEffect .divergence c a rand (some e)).emission = some e) := by
  have hpi : (0 : ℚ) < MATH_PI := by norm_num [MATH_PI]
  refine ⟨fun c a rand => rfl, fun c rand => rfl, ?_,
    fun c rand a em => rfl, fun c rand a => rfl, fun c rand a e => rfl⟩
  intro c rand h0 h1
  constructor
  · have : (makeEmission c none rand).angle = rand * MATH_PI * 2 := rfl
    rw [this]
    positivity
  · show rand * MATH_PI * 2 < MATH_PI * 2
    nlinarith [hpi]

/-- C10 witness: the angle bound instantiated at criticality 5 and random
value one half. -/
theorem emission_angle_fallback_witness :
    (0 : ℚ) ≤ 1 / 2 ∧ (1 / 2 : ℚ) < 1 ∧
    (0 ≤ (makeEmission 5 none (1 / 2)).angle ∧
      (makeEmission 5 none (1 / 2)).angle < MATH_PI * 2) :=
  ⟨by norm_num, by norm_num,
    emission_angle_fallback.2.2.1 5 (1 / 2) (by norm_num) (by norm_num)⟩

/-! ## C6 — emission angle lifecycle -/

theorem advance_nil {rand : ℚ} {s : Sched} (h : s.pending = []) :
    advance rand s =
      { s with circleState := .idle, currentEvent := none, displayAngle := none } := by
  unfold advance
  rw [h]

theorem advance_cons {rand : ℚ} {s : Sched} {x : Ev} {rest : List Ev}
    (h : s.pending = x :: rest) :
    advance rand s =
      { s with circleState := .analyzing, currentEvent := some x,
               displayAngle := some (rand * MATH_PI * 2), pending := rest } := by
  unfold advance
  rw [h]

theorem enqueueEvent_ne_nil (q : List Ev) (e : Ev) : enqueueEvent q e ≠ [] := by
  intro h
  have hlen : (enqueueEvent q e).length = q.length + 1 := by
    simp [enqueueEvent]
  rw [h] at hlen
  simp at hlen

theorem angle_bound {r : ℚ} (h0 : 0 ≤ r) (h1 : r < 1) :
    0 ≤ r * MATH_PI * 2 ∧ r * MATH_PI * 2 < MATH_PI * 2 := by
  have hpi : (0 : ℚ) < MATH_PI := by norm_num [MATH_PI]
  constructor
  · positivity
  · nlinarith [hpi]

/-- C6: in every reachable scheduler state the shared emission angle is
present exactly while the display state is not IDLE (a cycle has started),
and is then a scalar in `[0, 2·Math.PI)`; across every step, the angle
either stays the same (it is held constant through DIVERGENCE and
RETURNING), is freshly generated from the random source exactly at a
transition into ANALYZING, or is cleared to null exactly at a transition
into IDLE. -/
theorem emission_angle_lifecycle :
    (∀ s : Sched, Reachable s → angleInv s) ∧
    (∀ s s' : Sched, Step s s' →
        s'.displayAngle = s.displayAngle ∨
        (s'.circleState = .analyzing ∧
          ∃ r : ℚ, 0 ≤ r ∧ r < 1 ∧ s'.displayAngle = some (r * MATH_PI * 2)) ∨
        (s'.circleState = .idle ∧ s'.displayAngle = none)) := by
  have hstep : ∀ s s' : Sched, Step s s' → angleInv s → angleInv s' := by
    intro s s' hst hinv
    cases hst with
    | enqueue e rand h0 h1 =>
      unfold enqueueFn
      by_cases hc : s.circleState = .idle ∧ s.gapPending = false
      · rw [if_pos hc]
        obtain ⟨x, rest, hx⟩ :
            ∃ x rest, enqueueEvent s.pending e = x :: rest := by
          cases hq : enqueueEvent s.pending e with
          | nil => exact absurd hq (enqueueEvent_ne_nil _ _)
          | cons x rest => exact ⟨x, rest, rfl⟩
        rw [advance_cons hx]
        refine ⟨by simp, ?_⟩
        intro a ha
        simp only [Option.some.injEq] at ha
        rw [← ha]
        exact ⟨(angle_bound h0 h1).1, (angle_bound h0 h1).2⟩
      · rw [if_neg hc]
        exact hinv
    | analyzeDone h =>
      refine ⟨by simpa [h] using hinv.1.mpr (by simp [h]), hinv.2⟩
    | divergeDone h =>
      refine ⟨by simpa [h] using hinv.1.mpr (by simp [h]), hinv.2⟩
    | returnComplete h =>
      unfold handleReturnComplete
      by_cases hp : s.pending.isEmpty <;> simp [hp, angleInv]
    | gapFire rand h0 h1 hg =>
      cases hq : s.pending with
      | nil =>
        rw [advance_nil rfl]
        simp [angleInv]
      | cons x rest =>
        rw [advance_cons rfl]
        refine ⟨by simp, ?_⟩
        intro a ha
        simp only [Option.some.injEq] at ha
        rw [← ha]
        exact ⟨(angle_bound h0 h1).1, (angle_bound h0 h1).2⟩
  constructor
  · intro s h
    induction h with
    | init => exact ⟨by simp [Sched.init], by simp [Sched.init]⟩
    | step hr hst ih => exact hstep _ _ hst ih
  · intro s s' hst
    cases hst with
    | enqueue e rand h0 h1 =>
      unfold enqueueFn
      by_cases hc : s.circleState = .idle ∧ s.gapPending = false
      · rw [if_pos hc]
        obtain ⟨x, rest, hx⟩ :
            ∃ x rest, enqueueEvent s.pending e = x :: rest := by
          cases hq : enqueueEvent s.pending e with
          | nil => exact absurd hq (enqueueEvent_ne_nil _ _)
          | cons x rest => exact ⟨x, rest, rfl⟩
        rw [advance_cons hx]
        exact Or.inr (Or.inl ⟨rfl, rand, h0, h1, rfl⟩)
      · rw [if_neg hc]
        exact Or.inl rfl
    | analyzeDone h => exact Or.inl rfl
    | divergeDone h => exact Or.inl rfl
    | returnComplete h =>
      refine Or.inr (Or.inr ?_)
      unfold handleReturnComplete
      by_cases hp : s.pending.isEmpty <;> simp [hp]
    | gapFire rand h0 h1 hg =>
      cases hq : s.pending with
      | nil =>
        rw [advance_nil rfl]
        exact Or.inr (Or.inr ⟨rfl, rfl⟩)
      | cons x rest =>
        rw [advance_cons rfl]
        exact Or.inr (Or.inl ⟨rfl, rand, h0, h1, rfl⟩)

/-- C6 witness: the invariant evaluated at the (reachable) initial state. -/
theorem emission_angle_lifecycle_witness : angleInv Sched.init :=
  emission_angle_lifecycle.1 Sched.init Reachable.init

/-! ## C2 — the queue is sorted and stable after every insert -/

/-- One enqueue preserves the full queue invariant: the result of the
stable re-sort is pairwise criticality-descending with ties in arrival
order, arrival indices stay below the next fresh index, and stay
distinct. -/
theorem enqueue_preserves {n : ℕ} {q : List Ev} (c : ℚ) (hq : QueueInv n q) :
    QueueInv (n + 1) (enqueueEvent q ⟨c, n⟩) := by
  obtain ⟨hpair, hlt, hnd⟩ := hq
  have hperm : enqueueEvent q ⟨c, n⟩ ~ q ++ [⟨c, n⟩] :=
    List.mergeSort_perm _ _
  have hsorted : (enqueueEvent q ⟨c, n⟩).Pairwise (fun a b => jsSortLe a b) :=
    List.sorted_mergeSort jsSortLe_trans jsSortLe_total _
  have hndr : ((enqueueEvent q ⟨c, n⟩).map Ev.arrival).Nodup := by
    refine ((hperm.map Ev.arrival).nodup_iff).mpr ?_
    have hmap : (q ++ [(⟨c, n⟩ : Ev)]).map Ev.arrival = q.map Ev.arrival ++ [n] := by
      simp
    rw [hmap]
    refine List.Nodup.append hnd (by simp) ?_
    intro a ha hb
    simp only [List.mem_singleton] at hb
    subst hb
    obtain ⟨x, hx, hxa⟩ := List.mem_map.mp ha
    exact absurd (hxa ▸ hlt x hx) (lt_irrefl _)
  have hndEv : (enqueueEvent q ⟨c, n⟩).Nodup := List.Nodup.of_map Ev.arrival hndr
  refine ⟨?_, ?_, hndr⟩
  · rw [List.pairwise_iff_forall_sublist]
    intro a b hab
    have hble : b.criticality ≤ a.criticality := by
      have := List.pairwise_iff_forall_sublist.mp hsorted hab
      simpa [jsSortLe] using this
    rcases lt_or_eq_of_le hble with hlt' | heq
    · exact Or.inl hlt'
    · refine Or.inr ⟨heq.symm, ?_⟩
      have hne : a ≠ b := by
        intro h
        subst h
        exact (List.pairwise_iff_forall_sublist.mp hndEv hab) rfl
      have hma : a ∈ q ++ [(⟨c, n⟩ : Ev)] := hperm.subset (hab.subset (by simp))
      have hmb : b ∈ q ++ [(⟨c, n⟩ : Ev)] := hperm.subset (hab.subset (by simp))
      rcases List.mem_append.mp hmb with hbq | hbe
      · rcases List.mem_append.mp hma with haq | hae
        · -- both from the old queue: stability decides their order
          rcases mem_mem_order haq hbq hne with h1 | h2
          · have := List.pairwise_iff_forall_sublist.mp hpair h1
            rcases this with h | h
            · exact absurd (heq ▸ h) (lt_irrefl _)
            · exact h.2
          · -- the opposite order in the old queue would survive the sort
            have hba : [b, a] <+ enqueueEvent q ⟨c, n⟩ := by
              refine List.pair_sublist_mergeSort jsSortLe_trans jsSortLe_total ?_ ?_
              · simp [jsSortLe, heq]
              · exact h2.trans (List.sublist_append_left q _)
            exact absurd (pair_sublist_antisymm hndEv hab hba) hne
        · -- a is the new event but it precedes an old equal-criticality one
          simp only [List.mem_singleton] at hae
          subst hae
          have hba : [b, (⟨c, n⟩ : Ev)] <+ enqueueEvent q ⟨c, n⟩ := by
            refine List.pair_sublist_mergeSort jsSortLe_trans jsSortLe_total ?_ ?_
            · simp [jsSortLe, heq]
            · exact (List.singleton_sublist.mpr hbq).append (List.Sublist.refl _)
          exact absurd (pair_sublist_antisymm hndEv hab hba) hne
      · -- b is the new event: every older event has a smaller arrival index
        simp only [List.mem_singleton] at hbe
        subst hbe
        rcases List.mem_append.mp hma with haq | hae
        · exact hlt a haq
        · simp only [List.mem_singleton] at hae
          exact absurd hae hne
  · intro x hx
    rcases List.mem_append.mp (hperm.subset hx) with h | h
    · exact Nat.lt_succ_of_lt (hlt x h)
    · simp only [List.mem_singleton] at h
      subst h
      exact Nat.lt_succ_self n

theorem runEnqueues_inv :
    ∀ (cs : List ℚ) (n : ℕ) (q : List Ev), QueueInv n q →
      QueueInv (n + cs.length) (runEnqueues cs n q)
  | [], n, q, h => by simpa using h
  | c :: cs, n, q, h => by
      have ih := runEnqueues_inv cs (n + 1) _ (enqueue_preserves c h)
      have harith : n + 1 + cs.length = n + (c :: cs).length := by
        simp [Nat.add_comm, Nat.add_assoc, Nat.add_left_comm]
      rw [harith] at ih
      exact ih

/-- C2: for every sequence of enqueued criticalities and after every
insert (every prefix length `k`), the pending queue is pairwise in strict
criticality-descending order with equal-criticality events ordered by
arrival: the stable re-sort keeps the queue criticality-descending and
preserves arrival order on ties. -/
theorem queue_sorted_after_every_insert :
    ∀ (cs : List ℚ) (k : ℕ),
      (runEnqueues (cs.take k) 0 []).Pairwise ordRel := by
  intro cs k
  have h0 : QueueInv 0 [] := ⟨List.Pairwise.nil, by simp, by simp⟩
  exact (runEnqueues_inv (cs.take k) 0 [] h0).1

/-! ## C8 — overlay anchor versus render arc center -/

/-- C8 counterexample: at an 801×801 viewport the canvas size
`801 × 0.6 = 480.6` is truncated to the integer 480 by the canvas width
attribute, so the render radius is `480 × 0.38 = 182.4` while the overlay
radius is `480.6 × 0.38 = 182.628`; at emission angle 0 (cosine 1) the
anchor point and the arc center differ relative to their ring centers, so
the coordinates do not exactly match for every viewport size. -/
theorem hud_anchor_mismatch_cex :
    canvasDim 801 801 = 480 ∧
    hudCircleR 801 801 = 182.628 ∧
    renderBaseR 801 801 = 182.4 ∧
    hudCircleR 801 801 ≠ renderBaseR 801 801 ∧
    hudAnchorX 801 801 1 - 801 / 2 ≠
      renderArcX 801 801 1 - (canvasDim 801 801 : ℚ) / 2 := by
  have hdim : canvasDim 801 801 = 480 := by
    unfold canvasDim canvasSizeRaw
    rw [Int.floor_eq_iff]
    norm_num
  refine ⟨hdim, ?_, ?_, ?_, ?_⟩
  · norm_num [hudCircleR]
  · rw [renderBaseR, hdim]; norm_num
  · rw [hudCircleR, renderBaseR, hdim]; norm_num
  · rw [hudAnchorX, renderArcX, hudCircleR, renderBaseR, hdim]; norm_num

/-- C8 amended: for every viewport whose canvas size
`min(w, h) × 0.6` is a whole number (so the integer canvas attribute does
not truncate it), the overlay ring radius equals the render ring radius
exactly, and for every emission direction the overlay anchor point
relative to the viewport center coincides exactly with the render arc
center relative to the canvas center; for fractional canvas sizes the
truncated canvas width makes the two radii differ. -/
theorem hud_anchor_matches_when_integral :
    ∀ w h cosA sinA : ℚ,
      canvasSizeRaw w h = (canvasDim w h : ℚ) →
      hudCircleR w h = renderBaseR w h ∧
      hudAnchorX w h cosA - w / 2 =
        renderArcX w h cosA - (canvasDim w h : ℚ) / 2 ∧
      hudAnchorY w h sinA - h / 2 =
        renderArcY w h sinA - (canvasDim w h : ℚ) / 2 := by
  intro w h cosA sinA hint
  have hr : hudCircleR w h = renderBaseR w h := by
    unfold hudCircleR renderBaseR
    rw [← hint]
    unfold canvasSizeRaw
    ring
  refine ⟨hr, ?_, ?_⟩
  · unfold hudAnchorX renderArcX
    rw [hr]
    ring
  · unfold hudAnchorY renderArcY
    rw [hr]
    ring

/-- C8 witness: a 1000×1000 viewport, where the canvas size 600 is whole,
with direction cosine 3/5: the radii coincide. -/
theorem hud_anchor_matches_when_integral_witness :
    canvasSizeRaw 1000 1000 = (canvasDim 1000 1000 : ℚ) ∧
    hudCircleR 1000 1000 = renderBaseR 1000 1000 := by
  have hdim : canvasDim 1000 1000 = 600 := by
    unfold canvasDim canvasSizeRaw
    rw [Int.floor_eq_iff]
    norm_num
  have hint : canvasSizeRaw 1000 1000 = (canvasDim 1000 1000 : ℚ) := by
    rw [hdim]
    norm_num [canvasSizeRaw]
  exact ⟨hint,
    (hud_anchor_matches_when_integral 1000 1000 (3 / 5) (4 / 5) hint).1⟩

end Pythia
